import Mathlib

/-!
Verification of the slot-filling dialogue engine of the Homi marketplace
front-end, as implemented in `src/components/RequestFlow.tsx`.

Modelling conventions:
* JavaScript strings are Lean `String`; character-level work happens on
  `String.data : List Char`.
* JS `undefined`/missing optional fields are `Option.none`; JS truthiness of
  an optional string field (`!data.location`) is `truthy` below (a present
  empty string is falsy, like in JS).
* `text.toLowerCase()` is modelled as ASCII lowercasing (`Char.toLower`
  mapped over the characters); the keyword tables are all ASCII.
* `String.prototype.includes` is `occursIn` (substring containment).
* The three regular expressions of the component are embedded through a
  small backtracking matcher (`clsM`, `optCh`, `starCls`, `optM`, `capAt`,
  `scanFirst`) that mirrors the leftmost-match, greedy-with-backtracking
  semantics of the JS regex engine for these patterns.
* Natural-language question phrasing is elided; only the task-specific
  question table matters for control flow (its entries being present or
  absent decides whether the `specific` slot is required).
-/

/-- ASCII lowercasing of a string, modelling `text.toLowerCase()`. -/
def lowerData (s : String) : List Char :=
  s.data.map Char.toLower

/-- `leadsWith needle hay` is true when `needle` starts `hay`. -/
def leadsWith : List Char → List Char → Bool
  | [], _ => true
  | _ :: _, [] => false
  | c :: cs, d :: ds => c == d && leadsWith cs ds

/-- Substring containment, modelling `hay.includes(needle)` in JS. -/
def occursIn (needle : List Char) : List Char → Bool
  | [] => needle.isEmpty
  | c :: rest => leadsWith needle (c :: rest) || occursIn needle rest

/-- ASCII character class `[A-Z]`. -/
def isUpperAZ (c : Char) : Bool := 'A' ≤ c && c ≤ 'Z'

/-- ASCII character class `[a-z]`. -/
def isLowerAZ (c : Char) : Bool := 'a' ≤ c && c ≤ 'z'

/-- Continuations of the backtracking matcher: the remaining input is mapped
to the leftover after the rest of the pattern, or `none` on failure. -/
abbrev K := List Char → Option (List Char)

/-- Match one character of a class, then continue (regex `[..]`). -/
def clsM (p : Char → Bool) (k : K) : K := fun l =>
  match l with
  | c :: rest => if p c then k rest else none
  | [] => none

/-- Greedy optional single character (regex `c?`): try consuming first,
fall back to the continuation on the unconsumed input. -/
def optCh (c : Char) (k : K) : K := fun l =>
  match l with
  | d :: rest =>
      if d == c then
        match k rest with
        | some r => some r
        | none => k (d :: rest)
      else k (d :: rest)
  | [] => k []

/-- Greedy Kleene star over a character class (regex `[..]*`): consume as
many class characters as possible, backtracking one at a time. -/
def starCls (p : Char → Bool) (k : K) : List Char → Option (List Char)
  | [] => k []
  | c :: rest =>
      if p c then
        match starCls p k rest with
        | some r => some r
        | none => k (c :: rest)
      else k (c :: rest)

/-- Regex `[..]+`: one mandatory class character then a greedy star. -/
def plusCls (p : Char → Bool) (k : K) : K :=
  clsM p (starCls p k)

/-- Greedy optional group (regex `(?:..)?`): try the sub-matcher first,
fall back to skipping it. -/
def optM (m : K → K) (k : K) : K := fun l =>
  match m k l with
  | some r => some r
  | none => k l

/-- Run a matcher at the start of `l` and return the consumed characters
(the matched text) on success. -/
def capAt (m : K → K) (l : List Char) : Option (List Char) :=
  (m some l).map fun rest => l.take (l.length - rest.length)

/-- Leftmost match: try the position matcher at every index left to right,
as the JS regex engine does. -/
def scanFirst (try1 : List Char → Option (List Char)) : List Char → Option (List Char)
  | [] => try1 []
  | c :: rest =>
      match try1 (c :: rest) with
      | some m => some m
      | none => scanFirst try1 rest

/-- Body of the capture group `([A-Z][a-z]+ ?[A-Z]*[a-z]*,? ?[A-Z]{2})`
used by the first and third location patterns. -/
def body1 (k : K) : K :=
  clsM isUpperAZ (plusCls isLowerAZ (optCh ' ' (starCls isUpperAZ
    (starCls isLowerAZ (optCh ',' (optCh ' ' (clsM isUpperAZ (clsM isUpperAZ k))))))))

/-- Body of the capture group `([A-Z][a-z]+ ?[A-Z]*[a-z]*)` used by the
second location pattern. -/
def body2 (k : K) : K :=
  clsM isUpperAZ (plusCls isLowerAZ (optCh ' ' (starCls isUpperAZ (starCls isLowerAZ k))))

/-- Attempt of `/in ([A-Z][a-z]+ ?[A-Z]*[a-z]*,? ?[A-Z]{2})/` at one
position; the returned text is capture group 1. -/
def tryP1 : List Char → Option (List Char)
  | 'i' :: 'n' :: ' ' :: rest => capAt body1 rest
  | _ => none

/-- Attempt of `/at ([A-Z][a-z]+ ?[A-Z]*[a-z]*)/` at one position. -/
def tryP2 : List Char → Option (List Char)
  | 'a' :: 't' :: ' ' :: rest => capAt body2 rest
  | _ => none

/-- `extractLocation` from RequestFlow.tsx: try the three patterns in
order, returning capture group 1 of the first pattern that matches
anywhere in the text, else `null`. -/
def extractLocation (text : String) : Option String :=
  match scanFirst tryP1 text.data with
  | some c => some (String.mk c)
  | none =>
    match scanFirst tryP2 text.data with
    | some c => some (String.mk c)
    | none => (scanFirst (capAt body1) text.data).map String.mk

/-- The range part `(?:-\$?(\d+))?` of the budget regex. -/
def budgetRangeM (k : K) : K :=
  clsM (fun c => c == '-') (optCh '$' (plusCls Char.isDigit k))

/-- The full budget pattern `\$(\d+)(?:-\$?(\d+))?`. -/
def budgetM (k : K) : K :=
  clsM (fun c => c == '$') (plusCls Char.isDigit (optM budgetRangeM k))

/-- `extractBudget` from RequestFlow.tsx: `text.match(/\$(\d+)(?:-\$?(\d+))?/g)`
and take element 0, i.e. the leftmost full match, else `null`. -/
def extractBudget (text : String) : Option String :=
  (scanFirst (capAt budgetM) text.data).map String.mk

/-- `extractTaskType` from RequestFlow.tsx: ordered case-insensitive
keyword containment rules with default `"General Service"`. -/
def extractTaskType (text : String) : String :=
  let lt := lowerData text
  if occursIn "trash".data lt || occursIn "garbage".data lt then "Trash Removal"
  else if occursIn "photo".data lt || occursIn "photographer".data lt then "Photography"
  else if occursIn "clean".data lt || occursIn "cleaning".data lt then "Cleaning"
  else if occursIn "wifi".data lt || occursIn "internet".data lt || occursIn "tech".data lt then "Tech Support"
  else if occursIn "design".data lt || occursIn "logo".data lt || occursIn "graphic".data lt then "Graphic Design"
  else if occursIn "move".data lt || occursIn "moving".data lt then "Moving Services"
  else if occursIn "repair".data lt || occursIn "fix".data lt then "Repair Services"
  else "General Service"

/-- `extractTimeline` from RequestFlow.tsx. -/
def extractTimeline (text : String) : Option String :=
  let lt := lowerData text
  if occursIn "today".data lt || occursIn "asap".data lt then some "Today"
  else if occursIn "tomorrow".data lt then some "Tomorrow"
  else if occursIn "this week".data lt then some "This week"
  else if occursIn "next week".data lt then some "Next week"
  else if occursIn "weekend".data lt then some "This weekend"
  else none

/-- The `ScopingData` record of RequestFlow.tsx.  The JS field
`additionalInfo` is an open string map of which only the key `specific`
is ever read or written; it is modelled by the `specific` field. -/
structure ScopingData where
  taskType : Option String := none
  location : Option String := none
  budget : Option String := none
  timeline : Option String := none
  details : Option String := none
  specific : Option String := none
deriving DecidableEq

/-- JS truthiness of an optional string field: missing and `""` are falsy. -/
def truthy : Option String → Bool
  | none => false
  | some s => !(s == "")

/-- `getTaskSpecificQuestion` from RequestFlow.tsx: a fixed table keyed by
task type (`questions[taskType || ''] || null`). -/
def getTaskSpecificQuestion (taskType : Option String) : Option String :=
  let key := match taskType with
    | some s => if s == "" then "" else s
    | none => ""
  if key == "Trash Removal" then some "What type of items need removal?"
  else if key == "Photography" then some "What type of photography session?"
  else if key == "Cleaning" then some "What type of cleaning do you need?"
  else if key == "Tech Support" then some "What specific tech help do you need?"
  else if key == "Moving Services" then some "What size move is this?"
  else if key == "Graphic Design" then some "What type of design work?"
  else none

set_option linter.unusedVariables false in
/-- `getMissingInfo` from RequestFlow.tsx.  The `originalText` argument is
accepted (as in the source) but never used by the body. -/
def getMissingInfo (data : ScopingData) (originalText : String) : List String :=
  (if !truthy data.location then ["location"] else []) ++
  (if !truthy data.budget then ["budget"] else []) ++
  (if !truthy data.timeline then ["timeline"] else []) ++
  (if truthy data.taskType && !truthy data.specific then
    (match getTaskSpecificQuestion data.taskType with
     | some _ => ["specific"]
     | none => [])
   else [])

/-- The observable part of a `processUserInput` return value: the updated
slot state, the field whose question is emitted (`missingInfo[0]`), and
the completion flag. -/
structure AiResponse where
  updatedData : ScopingData
  asked : Option String
  isComplete : Bool
deriving DecidableEq

/-- The slot state built by the first-turn branch of `processUserInput`
(taken when `messages.length <= 1`): derive the task type, keep the raw
utterance as `details`, merge every extractor hit. -/
def firstTurnData (userInput : String) (currentData : ScopingData) : ScopingData :=
  let d0 := { currentData with
                taskType := some (extractTaskType userInput)
                details := some userInput }
  let eL := extractLocation userInput
  let d1 := if truthy eL then { d0 with location := eL } else d0
  let eB := extractBudget userInput
  let d2 := if truthy eB then { d1 with budget := eB } else d1
  let eT := extractTimeline userInput
  let d3 := if truthy eT then { d2 with timeline := eT } else d2
  d3

/-- The first-turn branch of `processUserInput`. -/
def processFirstInput (userInput : String) (currentData : ScopingData) : AiResponse :=
  let d3 := firstTurnData userInput currentData
  match getMissingInfo d3 userInput with
  | q :: _ => { updatedData := d3, asked := some q, isComplete := false }
  | [] => { updatedData := d3, asked := none, isComplete := true }

/-- The slot update of a subsequent turn: store the utterance into the
slot named by the head of the missing list (`missingBefore[0]` in the
source), with extractor refinement for `budget` only. -/
def applyAnswer (userInput : String) (currentData : ScopingData) : ScopingData :=
  match (getMissingInfo currentData (currentData.details.getD "")).head? with
  | some "location" => { currentData with location := some userInput }
  | some "budget" => { currentData with budget := some ((extractBudget userInput).getD userInput) }
  | some "timeline" => { currentData with timeline := some userInput }
  | some "specific" => { currentData with specific := some userInput }
  | _ => currentData

/-- The subsequent-turn branch of `processUserInput`: apply the answer to
the currently asked slot, then re-evaluate the missing list. -/
def processSubsequentInput (userInput : String) (currentData : ScopingData) : AiResponse :=
  let updatedData := applyAnswer userInput currentData
  match getMissingInfo updatedData (updatedData.details.getD "") with
  | q :: _ => { updatedData := updatedData, asked := some q, isComplete := false }
  | [] => { updatedData := updatedData, asked := none, isComplete := true }

/-- `processUserInput` itself branches on whether this is the first user
turn (`messages.length <= 1` in the source). -/
def processUserInput (firstTurn : Bool) (userInput : String) (currentData : ScopingData) : AiResponse :=
  if firstTurn then processFirstInput userInput currentData
  else processSubsequentInput userInput currentData

/-- Shorthand for the state reached by one subsequent turn. -/
def stepData (userInput : String) (d : ScopingData) : ScopingData :=
  (processSubsequentInput userInput d).updatedData

/-- The schema of the generative-object collaborator response used by
`generateFinalRequest` (number modelled as `Int`). -/
structure GenObject where
  taskType : String
  skills : List String
  location : String
  duration : String
  suggestedPrice : Int
  description : String
deriving DecidableEq

/-- The `ParsedRequest` record of RequestFlow.tsx. -/
structure ParsedRequest where
  taskType : String
  skills : List String
  location : String
  duration : String
  suggestedPrice : Int
  description : String
deriving DecidableEq

/-- JS `a || b` on an optional string against a string fallback. -/
def jsOr (o : Option String) (fallback : String) : String :=
  match o with
  | some s => if s == "" then fallback else s
  | none => fallback

/-- The merge performed by `generateFinalRequest` after a successful
collaborator call: locally collected `taskType`/`location` win over the
echoed ones. -/
def mergeFinalRequest (data : ScopingData) (obj : GenObject) : ParsedRequest :=
  { taskType := jsOr data.taskType obj.taskType
    skills := obj.skills
    location := jsOr data.location obj.location
    duration := obj.duration
    suggestedPrice := obj.suggestedPrice
    description := obj.description }

/-- Outcome of the completion path of `handleSubmit` (lines 148-169 plus
the catch block): what the component state holds after the turn. -/
structure CompletionOutcome where
  isComplete : Bool
  parsedRequest : Option ParsedRequest
  requestSaved : Bool
  errorMessageShown : Bool
deriving DecidableEq

/-- The completion path of `handleSubmit`: `setIsComplete(true)` happens
before the collaborator call; on success the merged request is stored and
one database record is created; if the call throws, the catch block only
appends an apology message, leaving `isComplete` as it was. -/
def finalizeAfterComplete (data : ScopingData) (collab : Except Unit GenObject) : CompletionOutcome :=
  match collab with
  | .ok obj =>
      { isComplete := true
        parsedRequest := some (mergeFinalRequest data obj)
        requestSaved := true
        errorMessageShown := false }
  | .error _ =>
      { isComplete := true
        parsedRequest := none
        requestSaved := false
        errorMessageShown := true }

/-- RequestFlow.tsx line 587: the text input area is rendered only while
the dialogue is not complete.  It is not the only input channel: the
suggestion chips of earlier messages remain rendered. -/
def inputAreaVisible (isComplete : Bool) : Bool := !isComplete

/-- RequestFlow.tsx lines 491-506: the suggestion chips of every already
rendered message stay on screen with `disabled={isProcessing}`, so they
are clickable again once the turn's `finally` block has reset
`isProcessing`; clicking one calls `handleSubmit(suggestion)`
(lines 438-440), i.e. it behaves exactly like typing that text. -/
def suggestionChipsEnabled (isProcessing : Bool) : Bool := !isProcessing

/-! ### Specification-side definitions (phrased from the claims) -/

/-- First-matching-rule semantics over an ordered keyword-rule table, as
the specification describes the extractors. -/
def firstRuleHit (lt : List Char) : List (List String × String) → Option String
  | [] => none
  | r :: rs => if r.1.any (fun kw => occursIn kw.data lt) then some r.2 else firstRuleHit lt rs

/-- The task-type rule table exactly as the claim lists it. -/
def taskTypeRules : List (List String × String) :=
  [(["trash", "garbage"], "Trash Removal"),
   (["photo", "photographer"], "Photography"),
   (["clean"], "Cleaning"),
   (["wifi", "internet", "tech"], "Tech Support"),
   (["design", "logo", "graphic"], "Graphic Design"),
   (["move", "moving"], "Moving Services"),
   (["repair", "fix"], "Repair Services")]

/-- Task-type extraction as the claim words it: ordered table, first match
wins, default `"General Service"`. -/
def taskTypeByRules (text : String) : String :=
  (firstRuleHit (lowerData text) taskTypeRules).getD "General Service"

/-- The timeline rule table exactly as the claim lists it. -/
def timelineRules : List (List String × String) :=
  [(["today", "asap"], "Today"),
   (["tomorrow"], "Tomorrow"),
   (["this week"], "This week"),
   (["next week"], "Next week"),
   (["weekend"], "This weekend")]

/-- Timeline extraction as the claim words it: ordered table, first match
wins, `none` when nothing matches. -/
def timelineByRules (text : String) : Option String :=
  firstRuleHit (lowerData text) timelineRules

/-- The completion invariant as the claim words it: location, budget and
timeline set, and the task-specific slot set or the task type has no
registered follow-up question. -/
def completionInvariant (d : ScopingData) : Bool :=
  truthy d.location && truthy d.budget && truthy d.timeline &&
    (truthy d.specific || (getTaskSpecificQuestion d.taskType).isNone)

/-- The fixed priority order of the Missing-Field Policy. -/
def missingFieldOrder : List String := ["location", "budget", "timeline", "specific"]

/-- Which required fields are unmet, as the claim words it (`specific`
applies only when the task type has a registered follow-up question). -/
def requiredFieldUnmet (d : ScopingData) (f : String) : Bool :=
  if f = "location" then !truthy d.location
  else if f = "budget" then !truthy d.budget
  else if f = "timeline" then !truthy d.timeline
  else if f = "specific" then (getTaskSpecificQuestion d.taskType).isSome && !truthy d.specific
  else false

/-- The budget pattern exactly as the claim words it: `$<integer>`
optionally followed by `-$<integer>` (dollar sign in the range part
mandatory). -/
def claimBudgetRangeM (k : K) : K :=
  clsM (fun c => c == '-') (clsM (fun c => c == '$') (plusCls Char.isDigit k))

/-- Full claim-side budget matcher. -/
def claimBudgetM (k : K) : K :=
  clsM (fun c => c == '$') (plusCls Char.isDigit (optM claimBudgetRangeM k))

/-- Budget extraction as the claim words it. -/
def claimExtractBudget (text : String) : Option String :=
  (scanFirst (capAt claimBudgetM) text.data).map String.mk

/-- Range part of the (amended) budget token shape: a dash, an optional
dollar sign, then one or more digits and nothing else. -/
def budgetRangeTail : List Char → Bool
  | c :: rest =>
      c == '-' &&
        (let rest2 := match rest with
           | d :: t => if d == '$' then t else d :: t
           | [] => []
         !rest2.isEmpty && rest2.all Char.isDigit)
  | [] => false

/-- Token shape of the amended budget pattern: `$<digits>` optionally
followed by `-<digits>` or `-$<digits>`, nothing else. -/
def budgetShape : List Char → Bool
  | c :: rest =>
      c == '$' &&
        (let ds := rest.takeWhile Char.isDigit
         let tl := rest.dropWhile Char.isDigit
         !ds.isEmpty && (tl.isEmpty || budgetRangeTail tl))
  | [] => false

example : extractTaskType "Need deep cleaning" = "Cleaning" := by decide
example : extractBudget "pay $50-100 now" = some "$50-100" := by decide
example : claimExtractBudget "pay $50-100 now" = some "$50" := by decide
example : extractTimeline "do it this weekend" = some "This week" := by decide
example : extractLocation "I live in Brooklyn, NY ok" = some "Brooklyn, NY" := by decide
example : extractLocation "Need deep cleaning" = none := by decide

/-! ### Substring lemmas -/

theorem leadsWith_append_left (b c : List Char) :
    ∀ l, leadsWith (b ++ c) l = true → leadsWith b l = true := by
  induction b with
  | nil => intro l _; rfl
  | cons x xs ih =>
    intro l h
    cases l with
    | nil => simp [leadsWith] at h
    | cons y ys =>
      simp [leadsWith] at h ⊢
      exact ⟨h.1, ih ys h.2⟩

theorem occursIn_append_left (b c : List Char) :
    ∀ h, occursIn (b ++ c) h = true → occursIn b h = true := by
  intro h
  induction h with
  | nil =>
    simp [occursIn, List.isEmpty_iff] at *
    intro h1 _
    simp [h1]
  | cons y ys ih =>
    intro hh
    simp [occursIn] at hh ⊢
    cases hh with
    | inl h1 => exact Or.inl (leadsWith_append_left _ _ _ h1)
    | inr h2 => exact Or.inr (ih h2)

theorem or_absorb_of_imp {a b : Bool} (h : b = true → a = true) : (a || b) = a := by
  cases a <;> cases b <;> simp_all

theorem occursIn_cleaning_clean (lt : List Char)
    (h : occursIn "cleaning".data lt = true) : occursIn "clean".data lt = true := by
  have hsplit : "cleaning".data = "clean".data ++ "ing".data := by decide
  rw [hsplit] at h
  exact occursIn_append_left _ _ _ h

/-- C3: for every input text, the task-type extractor behaves exactly as
the ordered keyword table trash/garbage, photo/photographer, clean,
wifi/internet/tech, design/logo/graphic, move/moving, repair/fix with the
first matching rule winning and default `"General Service"`.  (The source
also tests the redundant keyword `"cleaning"`, which is absorbed by
`"clean"`.) -/
theorem c3_taskType_ordered_rules (text : String) :
    extractTaskType text = taskTypeByRules text := by
  unfold extractTaskType taskTypeByRules
  simp only [firstRuleHit, taskTypeRules, List.any_cons, List.any_nil,
    Bool.or_false, Bool.or_assoc]
  rw [or_absorb_of_imp (occursIn_cleaning_clean (lowerData text))]
  split_ifs <;> rfl

/-- C6: for every input text, the timeline extractor behaves exactly as
the ordered keyword table today/asap, tomorrow, this week, next week,
weekend with the first matching rule winning and result `none` (never a
default) when no keyword occurs; and an unset timeline always puts
`"timeline"` into the missing-field list, so the timeline question is
triggered. -/
theorem c6_timeline_ordered_rules (text : String) :
    extractTimeline text = timelineByRules text ∧
      (∀ (d : ScopingData) (t : String), truthy d.timeline = false →
        "timeline" ∈ getMissingInfo d t) := by
  constructor
  · unfold extractTimeline timelineByRules
    simp only [firstRuleHit, timelineRules, List.any_cons, List.any_nil,
      Bool.or_false, Bool.or_assoc]
  · intro d t h
    unfold getMissingInfo
    rw [h]
    simp

/-! ### Dialogue-state helper lemmas -/

theorem gmi_text (d : ScopingData) (t t' : String) :
    getMissingInfo d t = getMissingInfo d t' := rfl

theorem truthy_some {s : String} (h : s ≠ "") : truthy (some s) = true := by
  simp [truthy, h]

theorem q_some_truthy (o : Option String)
    (h : (getTaskSpecificQuestion o).isSome = true) : truthy o = true := by
  cases o with
  | none => simp [getTaskSpecificQuestion] at h
  | some s =>
    by_cases hs : s = ""
    · subst hs; simp [getTaskSpecificQuestion] at h
    · simp [truthy, hs]

theorem gmi_empty_iff (d : ScopingData) (t : String) :
    getMissingInfo d t = [] ↔ completionInvariant d = true := by
  unfold getMissingInfo completionInvariant
  cases hq : getTaskSpecificQuestion d.taskType with
  | some s =>
    have htt : truthy d.taskType = true := q_some_truthy d.taskType (by rw [hq]; rfl)
    cases hl : truthy d.location <;> cases hb : truthy d.budget <;>
      cases ht : truthy d.timeline <;> cases hs : truthy d.specific <;>
      simp_all
  | none =>
    cases hl : truthy d.location <;> cases hb : truthy d.budget <;>
      cases ht : truthy d.timeline <;> cases htt : truthy d.taskType <;>
      cases hs : truthy d.specific <;> simp_all

theorem stepData_eq (input : String) (d : ScopingData) :
    stepData input d = applyAnswer input d := by
  unfold stepData processSubsequentInput
  cases h : getMissingInfo (applyAnswer input d) ((applyAnswer input d).details.getD "") <;>
    simp [h]

theorem subseq_asked (input : String) (d : ScopingData) (t : String) :
    (processSubsequentInput input d).asked = (getMissingInfo (stepData input d) t).head? := by
  rw [stepData_eq, gmi_text (applyAnswer input d) t ((applyAnswer input d).details.getD "")]
  unfold processSubsequentInput
  cases h : getMissingInfo (applyAnswer input d) ((applyAnswer input d).details.getD "") <;>
    simp [h]

theorem subseq_isComplete (input : String) (d : ScopingData) (t : String) :
    (processSubsequentInput input d).isComplete = true ↔
      getMissingInfo (stepData input d) t = [] := by
  rw [stepData_eq, gmi_text (applyAnswer input d) t ((applyAnswer input d).details.getD "")]
  unfold processSubsequentInput
  cases h : getMissingInfo (applyAnswer input d) ((applyAnswer input d).details.getD "") <;>
    simp [h]

theorem first_updatedData (input : String) (d : ScopingData) :
    (processFirstInput input d).updatedData = firstTurnData input d := by
  unfold processFirstInput
  cases h : getMissingInfo (firstTurnData input d) input <;> simp [h]

theorem first_asked (input : String) (d : ScopingData) (t : String) :
    (processFirstInput input d).asked = (getMissingInfo (firstTurnData input d) t).head? := by
  rw [gmi_text (firstTurnData input d) t input]
  unfold processFirstInput
  cases h : getMissingInfo (firstTurnData input d) input <;> simp [h]

theorem first_isComplete (input : String) (d : ScopingData) (t : String) :
    (processFirstInput input d).isComplete = true ↔
      getMissingInfo (firstTurnData input d) t = [] := by
  rw [gmi_text (firstTurnData input d) t input]
  unfold processFirstInput
  cases h : getMissingInfo (firstTurnData input d) input <;> simp [h]

theorem firstTurnData_taskType (input : String) (d : ScopingData) :
    (firstTurnData input d).taskType = some (extractTaskType input) := by
  simp only [firstTurnData]
  split <;> split <;> split <;> rfl

theorem firstTurnData_specific (input : String) (d : ScopingData) :
    (firstTurnData input d).specific = d.specific := by
  simp only [firstTurnData]
  split <;> split <;> split <;> rfl

theorem extractTaskType_ne_empty (text : String) : (extractTaskType text == "") = false := by
  simp only [extractTaskType]
  split_ifs <;> decide

/-! ### Backtracking-matcher specification lemmas -/

theorem clsM_spec {p : Char → Bool} {k : K} {l r : List Char}
    (h : clsM p k l = some r) :
    ∃ c rest, l = c :: rest ∧ p c = true ∧ k rest = some r := by
  cases l with
  | nil => simp [clsM] at h
  | cons c rest =>
    by_cases hp : p c = true
    · exact ⟨c, rest, rfl, hp, by simpa [clsM, hp] using h⟩
    · simp [clsM, hp] at h

theorem starCls_spec {p : Char → Bool} {k : K} :
    ∀ {l r : List Char}, starCls p k l = some r →
      ∃ a b, l = a ++ b ∧ a.all p = true ∧ k b = some r := by
  intro l
  induction l with
  | nil =>
    intro r h
    exact ⟨[], [], rfl, rfl, by simpa [starCls] using h⟩
  | cons c rest ih =>
    intro r h
    by_cases hp : p c = true
    · simp only [starCls, hp, if_true] at h
      cases hrec : starCls p k rest with
      | some r2 =>
        rw [hrec] at h
        simp only [Option.some.injEq] at h
        subst h
        obtain ⟨a, b, hab, hall, hk⟩ := ih hrec
        exact ⟨c :: a, b, by simp [hab], by simp [hp, hall], hk⟩
      | none =>
        rw [hrec] at h
        exact ⟨[], c :: rest, rfl, rfl, h⟩
    · simp only [starCls] at h
      rw [if_neg hp] at h
      exact ⟨[], c :: rest, rfl, rfl, h⟩

theorem plusCls_spec {p : Char → Bool} {k : K} {l r : List Char}
    (h : plusCls p k l = some r) :
    ∃ a b, l = a ++ b ∧ a ≠ [] ∧ a.all p = true ∧ k b = some r := by
  obtain ⟨c, rest, hl, hp, hk⟩ := clsM_spec h
  obtain ⟨a, b, hab, hall, hk2⟩ := starCls_spec hk
  exact ⟨c :: a, b, by simp [hl, hab], by simp, by simp [hp, hall], hk2⟩

theorem optCh_spec {c : Char} {k : K} {l r : List Char}
    (h : optCh c k l = some r) :
    (∃ rest, l = c :: rest ∧ k rest = some r) ∨ k l = some r := by
  cases l with
  | nil => exact Or.inr (by simpa [optCh] using h)
  | cons d rest =>
    by_cases hd : (d == c) = true
    · have hdc : d = c := eq_of_beq hd
      subst hdc
      simp only [optCh, BEq.refl, if_true] at h
      cases hk : k rest with
      | some r2 =>
        rw [hk] at h
        simp only [Option.some.injEq] at h
        subst h
        exact Or.inl ⟨rest, rfl, hk⟩
      | none =>
        rw [hk] at h
        exact Or.inr h
    · simp only [optCh] at h
      rw [if_neg hd] at h
      exact Or.inr h

theorem optM_spec {m : K → K} {k : K} {l r : List Char}
    (h : optM m k l = some r) : m k l = some r ∨ k l = some r := by
  cases hm : m k l with
  | some r2 =>
    have h2 : optM m k l = some r2 := by unfold optM; rw [hm]
    rw [h2] at h
    exact Or.inl h
  | none =>
    have h2 : optM m k l = k l := by unfold optM; rw [hm]
    rw [h2] at h
    exact Or.inr h

theorem optM_total (m : K → K) (l : List Char) : (optM m some l).isSome = true := by
  unfold optM
  cases hm : m some l <;> simp

theorem starCls_total {p : Char → Bool} {k : K}
    (hk : ∀ x, (k x).isSome = true) : ∀ l, (starCls p k l).isSome = true := by
  intro l
  induction l with
  | nil => simpa [starCls] using hk []
  | cons c rest ih =>
    by_cases hp : p c = true
    · simp only [starCls, hp, if_true]
      cases hrec : starCls p k rest with
      | some r => simp
      | none => simpa using hk (c :: rest)
    · simp only [starCls]
      rw [if_neg hp]
      exact hk _

theorem budgetM_success (c : Char) (t : List Char) (hc : Char.isDigit c = true) :
    (budgetM some ('$' :: c :: t)).isSome = true := by
  have h1 : budgetM some ('$' :: c :: t) =
      starCls Char.isDigit (optM budgetRangeM some) t := by
    unfold budgetM plusCls clsM
    simp [hc]
  rw [h1]
  exact starCls_total (fun x => optM_total budgetRangeM x) t

theorem digit_not_dollar {c : Char} (h : Char.isDigit c = true) : (c == '$') = false := by
  cases hcb : (c == '$') with
  | false => rfl
  | true =>
    rw [eq_of_beq hcb] at h
    exact absurd h (by decide)

theorem all_takeWhile_self {p : Char → Bool} :
    ∀ {a : List Char}, a.all p = true → a.takeWhile p = a := by
  intro a
  induction a with
  | nil => intro _; rfl
  | cons c cs ih =>
    intro h
    simp only [List.all_cons, Bool.and_eq_true] at h
    simp [List.takeWhile_cons, h.1, ih h.2]

theorem all_dropWhile_self {p : Char → Bool} :
    ∀ {a : List Char}, a.all p = true → a.dropWhile p = [] := by
  intro a
  induction a with
  | nil => intro _; rfl
  | cons c cs ih =>
    intro h
    simp only [List.all_cons, Bool.and_eq_true] at h
    simp [List.dropWhile_cons, h.1, ih h.2]

theorem takeWhile_append_stop {p : Char → Bool} {c : Char} (hc : p c = false) :
    ∀ (a b : List Char), a.all p = true → (a ++ c :: b).takeWhile p = a := by
  intro a
  induction a with
  | nil => intro b _; simp [List.takeWhile_cons, hc]
  | cons x xs ih =>
    intro b h
    simp only [List.all_cons, Bool.and_eq_true] at h
    simp [List.takeWhile_cons, h.1, ih b h.2]

theorem dropWhile_append_stop {p : Char → Bool} {c : Char} (hc : p c = false) :
    ∀ (a b : List Char), a.all p = true → (a ++ c :: b).dropWhile p = c :: b := by
  intro a
  induction a with
  | nil => intro b _; simp [List.dropWhile_cons, hc]
  | cons x xs ih =>
    intro b h
    simp only [List.all_cons, Bool.and_eq_true] at h
    simp [List.dropWhile_cons, h.1, ih b h.2]

theorem budgetShape_plain {ds : List Char} (h1 : ds ≠ []) (h2 : ds.all Char.isDigit = true) :
    budgetShape ('$' :: ds) = true := by
  simp only [budgetShape]
  rw [all_takeWhile_self h2, all_dropWhile_self h2]
  simp [h1]

theorem budgetShape_range_plain {ds ds2 : List Char}
    (h1 : ds ≠ []) (h2 : ds.all Char.isDigit = true)
    (h3 : ds2 ≠ []) (h4 : ds2.all Char.isDigit = true) :
    budgetShape ('$' :: ds ++ '-' :: ds2) = true := by
  have hdash : Char.isDigit '-' = false := by decide
  simp only [List.cons_append, budgetShape]
  rw [takeWhile_append_stop hdash ds ds2 h2, dropWhile_append_stop hdash ds ds2 h2]
  cases ds2 with
  | nil => exact absurd rfl h3
  | cons d2 t2 =>
    have hd2 : Char.isDigit d2 = true := by
      simp only [List.all_cons, Bool.and_eq_true] at h4
      exact h4.1
    simp [budgetRangeTail, digit_not_dollar hd2, h1, h4]

theorem budgetShape_range_dollar {ds ds2 : List Char}
    (h1 : ds ≠ []) (h2 : ds.all Char.isDigit = true)
    (h3 : ds2 ≠ []) (h4 : ds2.all Char.isDigit = true) :
    budgetShape ('$' :: ds ++ '-' :: '$' :: ds2) = true := by
  have hdash : Char.isDigit '-' = false := by decide
  simp only [List.cons_append, budgetShape]
  rw [takeWhile_append_stop hdash ds ('$' :: ds2) h2,
    dropWhile_append_stop hdash ds ('$' :: ds2) h2]
  simp [budgetRangeTail, h1, h3, h4]

theorem budgetM_spec {l rest : List Char} (h : budgetM some l = some rest) :
    ∃ ds tail2,
      l = ('$' :: ds ++ tail2) ++ rest ∧ ds ≠ [] ∧ ds.all Char.isDigit = true ∧
      (tail2 = [] ∨
        (∃ ds2, tail2 = '-' :: ds2 ∧ ds2 ≠ [] ∧ ds2.all Char.isDigit = true) ∨
        (∃ ds2, tail2 = '-' :: '$' :: ds2 ∧ ds2 ≠ [] ∧ ds2.all Char.isDigit = true)) := by
  obtain ⟨c, l1, hl, hp, h1⟩ := clsM_spec h
  have hc : c = '$' := eq_of_beq hp
  subst hc
  obtain ⟨ds, b, hb, hne, hall, h2⟩ := plusCls_spec h1
  rcases optM_spec h2 with h3 | h3
  · obtain ⟨c2, b1, hb1, hp2, h4⟩ := clsM_spec h3
    have hc2 : c2 = '-' := eq_of_beq hp2
    subst hc2
    rcases optCh_spec h4 with ⟨b2, hb2, h5⟩ | h5
    · obtain ⟨ds2, b3, hb3, hne2, hall2, h6⟩ := plusCls_spec h5
      have hb3r : b3 = rest := by simpa using h6
      subst hb3r
      refine ⟨ds, '-' :: '$' :: ds2, ?_, hne, hall, Or.inr (Or.inr ⟨ds2, rfl, hne2, hall2⟩)⟩
      simp [hl, hb, hb1, hb2, hb3]
    · obtain ⟨ds2, b3, hb3, hne2, hall2, h6⟩ := plusCls_spec h5
      have hb3r : b3 = rest := by simpa using h6
      subst hb3r
      refine ⟨ds, '-' :: ds2, ?_, hne, hall, Or.inr (Or.inl ⟨ds2, rfl, hne2, hall2⟩)⟩
      simp [hl, hb, hb1, hb3]
  · have hbr : b = rest := by simpa using h3
    subst hbr
    exact ⟨ds, [], by simp [hl, hb], hne, hall, Or.inl rfl⟩

theorem take_len_append {α : Type} : ∀ (a b : List α), (a ++ b).take a.length = a := by
  intro a
  induction a with
  | nil => intro b; rfl
  | cons x xs ih => intro b; simp [ih b]

theorem capAt_budgetM_spec {l m : List Char} (h : capAt budgetM l = some m) :
    budgetShape m = true ∧ ∃ rest, l = m ++ rest := by
  unfold capAt at h
  cases hb : budgetM some l with
  | none => rw [hb] at h; simp at h
  | some r =>
    rw [hb] at h
    simp only [Option.map_some', Option.some.injEq] at h
    obtain ⟨ds, tail2, hl, hne, hall, hcase⟩ := budgetM_spec hb
    have hm : m = '$' :: ds ++ tail2 := by
      rw [← h, hl]
      have hlen : (('$' :: ds ++ tail2) ++ r).length - r.length =
          ('$' :: ds ++ tail2).length := by
        simp
        omega
      rw [hlen, take_len_append]
    constructor
    · rw [hm]
      rcases hcase with rfl | ⟨ds2, rfl, hne2, hall2⟩ | ⟨ds2, rfl, hne2, hall2⟩
      · simpa using budgetShape_plain hne hall
      · exact budgetShape_range_plain hne hall hne2 hall2
      · exact budgetShape_range_dollar hne hall hne2 hall2
    · exact ⟨r, by rw [hm, hl]⟩

theorem scanFirst_some_spec {t : List Char → Option (List Char)} :
    ∀ {l m : List Char}, scanFirst t l = some m →
      ∃ i, t (l.drop i) = some m ∧ ∀ j, j < i → t (l.drop j) = none := by
  intro l
  induction l with
  | nil =>
    intro m h
    refine ⟨0, by simpa [scanFirst] using h, ?_⟩
    intro j hj
    exact absurd hj (Nat.not_lt_zero j)
  | cons c rest ih =>
    intro m h
    cases ht : t (c :: rest) with
    | some m2 =>
      have hs : scanFirst t (c :: rest) = some m2 := by
        simp only [scanFirst]
        rw [ht]
      rw [hs] at h
      refine ⟨0, ?_, ?_⟩
      · simpa using ht.trans h
      · intro j hj
        exact absurd hj (Nat.not_lt_zero j)
    | none =>
      have hs : scanFirst t (c :: rest) = scanFirst t rest := by
        simp only [scanFirst]
        rw [ht]
      rw [hs] at h
      obtain ⟨i, hi, hj⟩ := ih h
      refine ⟨i + 1, by simpa using hi, ?_⟩
      intro j hj2
      cases j with
      | zero => simpa using ht
      | succ j2 =>
        have := hj j2 (by omega)
        simpa using this

theorem scanFirst_none_spec {t : List Char → Option (List Char)} :
    ∀ {l : List Char}, scanFirst t l = none → ∀ i, t (l.drop i) = none := by
  intro l
  induction l with
  | nil =>
    intro h i
    have h0 : t [] = none := by simpa [scanFirst] using h
    simpa using h0
  | cons c rest ih =>
    intro h i
    cases ht : t (c :: rest) with
    | some m =>
      have hs : scanFirst t (c :: rest) = some m := by unfold scanFirst; rw [ht]
      rw [hs] at h
      simp at h
    | none =>
      have hs : scanFirst t (c :: rest) = scanFirst t rest := by
        simp only [scanFirst]
        rw [ht]
      rw [hs] at h
      cases i with
      | zero => simpa using ht
      | succ i2 => simpa using ih h i2

theorem leadsWith_iff {n : List Char} :
    ∀ {h : List Char}, leadsWith n h = true ↔ ∃ rest, h = n ++ rest := by
  induction n with
  | nil =>
    intro h
    simp [leadsWith]
  | cons c cs ih =>
    intro h
    cases h with
    | nil =>
      simp [leadsWith]
    | cons d ds =>
      simp only [leadsWith, Bool.and_eq_true, beq_iff_eq]
      constructor
      · rintro ⟨hcd, hlw⟩
        obtain ⟨rest, hr⟩ := ih.mp hlw
        exact ⟨rest, by simp [hr, hcd]⟩
      · rintro ⟨rest, hr⟩
        injection hr with h1 h2
        exact ⟨h1.symm, ih.mpr ⟨rest, h2⟩⟩

theorem occursIn_iff_parts {n : List Char} :
    ∀ {h : List Char}, occursIn n h = true ↔ ∃ pre rest, h = pre ++ n ++ rest := by
  intro h
  induction h with
  | nil =>
    simp only [occursIn, List.isEmpty_iff]
    constructor
    · rintro rfl
      exact ⟨[], [], rfl⟩
    · rintro ⟨pre, rest, hpr⟩
      have := hpr.symm
      simp only [List.append_eq_nil, List.append_assoc] at this
      exact this.2.1
  | cons c hs ih =>
    simp only [occursIn, Bool.or_eq_true]
    constructor
    · rintro (hlw | hoc)
      · obtain ⟨rest, hr⟩ := leadsWith_iff.mp hlw
        exact ⟨[], rest, by simpa using hr⟩
      · obtain ⟨pre, rest, hr⟩ := ih.mp hoc
        exact ⟨c :: pre, rest, by simp [hr]⟩
    · rintro ⟨pre, rest, hr⟩
      cases pre with
      | nil =>
        exact Or.inl (leadsWith_iff.mpr ⟨rest, by simpa using hr⟩)
      | cons p ps =>
        injection hr with h1 h2
        exact Or.inr (ih.mpr ⟨ps, rest, h2⟩)

theorem budgetShape_start {s : List Char} (h : budgetShape s = true) :
    ∃ c t2, s = '$' :: c :: t2 ∧ Char.isDigit c = true := by
  cases s with
  | nil => simp [budgetShape] at h
  | cons c rest =>
    simp only [budgetShape, Bool.and_eq_true, beq_iff_eq] at h
    obtain ⟨hc, hds, _⟩ := h
    subst hc
    cases rest with
    | nil => simp at hds
    | cons d t2 =>
      cases hd : Char.isDigit d with
      | true => exact ⟨d, t2, rfl, hd⟩
      | false =>
        rw [List.takeWhile_cons, hd] at hds
        simp at hds

theorem drop_len_append {α : Type} : ∀ (a b : List α), (a ++ b).drop a.length = b := by
  intro a
  induction a with
  | nil => intro b; rfl
  | cons x xs ih => intro b; simp [ih b]

theorem extractBudget_some_spec {text : String} {m : String}
    (h : extractBudget text = some m) :
    budgetShape m.data = true ∧ occursIn m.data text.data = true ∧
      ∃ i, capAt budgetM (text.data.drop i) = some m.data ∧
        ∀ j, j < i → capAt budgetM (text.data.drop j) = none := by
  unfold extractBudget at h
  cases hs : scanFirst (capAt budgetM) text.data with
  | none => rw [hs] at h; simp at h
  | some c =>
    rw [hs] at h
    simp only [Option.map_some', Option.some.injEq] at h
    obtain ⟨i, hi, hj⟩ := scanFirst_some_spec hs
    obtain ⟨hshape, rest, hdec⟩ := capAt_budgetM_spec hi
    have hmd : m.data = c := by rw [← h]
    refine ⟨by rw [hmd]; exact hshape, ?_, ⟨i, by rw [hmd]; exact hi, fun j hjlt => hj j hjlt⟩⟩
    rw [hmd]
    apply occursIn_iff_parts.mpr
    refine ⟨text.data.take i, rest, ?_⟩
    conv_lhs => rw [← List.take_append_drop i text.data]
    rw [hdec]
    simp

theorem capAt_budgetM_isSome {l : List Char} (h : (budgetM some l).isSome = true) :
    (capAt budgetM l).isSome = true := by
  unfold capAt
  cases hb : budgetM some l with
  | none => rw [hb] at h; simp at h
  | some r => simp

theorem shaped_leads_capAt_some {s l : List Char} (hshape : budgetShape s = true)
    (hlead : leadsWith s l = true) : (capAt budgetM l).isSome = true := by
  obtain ⟨c, t2, hsv, hc⟩ := budgetShape_start hshape
  obtain ⟨rest, hrest⟩ := leadsWith_iff.mp hlead
  rw [hrest, hsv]
  have : ('$' :: c :: t2) ++ rest = '$' :: c :: (t2 ++ rest) := by simp
  rw [this]
  exact capAt_budgetM_isSome (budgetM_success c (t2 ++ rest) hc)

theorem extractBudget_ne_empty {text m : String} (h : extractBudget text = some m) :
    (m == "") = false := by
  obtain ⟨hshape, -, -⟩ := extractBudget_some_spec h
  obtain ⟨c, t2, hm, -⟩ := budgetShape_start hshape
  cases hb : (m == "") with
  | false => rfl
  | true =>
    have hme : m = "" := eq_of_beq hb
    rw [hme] at hm
    simp at hm

/-- C7 counterexample: on the input "$50-100" the extractor of the source
returns the whole range "$50-100" (the second dollar sign is optional in
the regex), while the pattern stated by the claim, `$<integer>` optionally
followed by `-$<integer>`, matches only "$50"; so the claim is false as
stated. -/
theorem c7_counterexample_range_without_dollar :
    extractBudget "$50-100" = some "$50-100" ∧
      claimExtractBudget "$50-100" = some "$50" ∧
      extractBudget "$50-100" ≠ claimExtractBudget "$50-100" :=
  ⟨by decide, by decide, by decide⟩

/-- C7 (amended): the budget extractor matches a currency pattern of the
form `$<integer>` optionally followed by a range part `-<integer>` in
which the second dollar sign is optional (`-$<integer>` also accepted);
it returns the first (leftmost) match verbatim as text, and returns
`none` exactly when no such pattern occurs anywhere in the text. -/
theorem c7_amended_budget_extractor (text : String) :
    (∀ m : String, extractBudget text = some m →
        budgetShape m.data = true ∧ occursIn m.data text.data = true ∧
        ∃ i, leadsWith m.data (text.data.drop i) = true ∧
          ∀ j, j < i → ∀ s, budgetShape s = true →
            leadsWith s (text.data.drop j) = false) ∧
    (extractBudget text = none ↔
      ∀ s, budgetShape s = true → occursIn s text.data = false) := by
  constructor
  · intro m h
    obtain ⟨hshape, hocc, i, hi, hj⟩ := extractBudget_some_spec h
    refine ⟨hshape, hocc, i, ?_, ?_⟩
    · obtain ⟨-, rest, hdec⟩ := capAt_budgetM_spec hi
      exact leadsWith_iff.mpr ⟨rest, hdec⟩
    · intro j hjlt s hs
      cases hlw : leadsWith s (text.data.drop j) with
      | false => rfl
      | true =>
        have hsome := shaped_leads_capAt_some hs hlw
        rw [hj j hjlt] at hsome
        simp at hsome
  · constructor
    · intro hnone s hs
      unfold extractBudget at hnone
      cases hsf : scanFirst (capAt budgetM) text.data with
      | some c => rw [hsf] at hnone; simp at hnone
      | none =>
        cases hoc : occursIn s text.data with
        | false => rfl
        | true =>
          obtain ⟨pre, rest, hpr⟩ := occursIn_iff_parts.mp hoc
          have hdrop : text.data.drop pre.length = s ++ rest := by
            rw [hpr, List.append_assoc]
            exact drop_len_append pre (s ++ rest)
          have hws := shaped_leads_capAt_some hs (leadsWith_iff.mpr ⟨rest, hdrop⟩)
          have hnone2 := scanFirst_none_spec hsf pre.length
          rw [hnone2] at hws
          simp at hws
    · intro hall
      cases hex : extractBudget text with
      | none => rfl
      | some m =>
        obtain ⟨hshape, hocc, -⟩ := extractBudget_some_spec hex
        rw [hall m.data hshape] at hocc
        simp at hocc

/-- Witness for the amended C7 theorem at the concrete input
"pay $50-100". -/
theorem c7_amended_budget_extractor_witness :
    budgetShape "$50-100".data = true ∧
      occursIn "$50-100".data "pay $50-100".data = true := by
  have h := (c7_amended_budget_extractor "pay $50-100").1 "$50-100" (by decide)
  exact ⟨h.1, h.2.1⟩

theorem truthy_budget_fallback {input : String} (h : input ≠ "") :
    truthy (some ((extractBudget input).getD input)) = true := by
  cases hb : extractBudget input with
  | none => simpa using truthy_some h
  | some m =>
    have hne := extractBudget_ne_empty hb
    simp [truthy, hne]

theorem gmi_head_flags (d : ScopingData) (t : String) :
    ((getMissingInfo d t).head? = some "location" → truthy d.location = false) ∧
    ((getMissingInfo d t).head? = some "budget" → truthy d.budget = false) ∧
    ((getMissingInfo d t).head? = some "timeline" → truthy d.timeline = false) ∧
    ((getMissingInfo d t).head? = some "specific" → truthy d.specific = false) := by
  unfold getMissingInfo
  cases hl : truthy d.location <;> cases hb : truthy d.budget <;>
    cases ht : truthy d.timeline <;> cases htt : truthy d.taskType <;>
    cases hs : truthy d.specific <;> cases hq : getTaskSpecificQuestion d.taskType <;>
    simp_all

theorem gmi_len_le (d : ScopingData) (t : String) : (getMissingInfo d t).length ≤ 4 := by
  unfold getMissingInfo
  cases hl : truthy d.location <;> cases hb : truthy d.budget <;>
    cases ht : truthy d.timeline <;> cases htt : truthy d.taskType <;>
    cases hs : truthy d.specific <;> cases hq : getTaskSpecificQuestion d.taskType <;>
    simp_all

theorem step_missing {input : String} (h : input ≠ "") (d : ScopingData) (t t' : String) :
    getMissingInfo (stepData input d) t = (getMissingInfo d t').tail := by
  rw [stepData_eq]
  have hti : truthy (some input) = true := truthy_some h
  have htb : truthy (some ((extractBudget input).getD input)) = true :=
    truthy_budget_fallback h
  unfold applyAnswer getMissingInfo
  cases hl : truthy d.location <;> cases hb : truthy d.budget <;>
    cases ht : truthy d.timeline <;> cases htt : truthy d.taskType <;>
    cases hs : truthy d.specific <;> cases hq : getTaskSpecificQuestion d.taskType <;>
    simp_all

theorem step_keeps (input : String) (d : ScopingData) :
    (stepData input d).taskType = d.taskType ∧
    (stepData input d).details = d.details ∧
    (truthy d.location = true → (stepData input d).location = d.location) ∧
    (truthy d.budget = true → (stepData input d).budget = d.budget) ∧
    (truthy d.timeline = true → (stepData input d).timeline = d.timeline) ∧
    (truthy d.specific = true → (stepData input d).specific = d.specific) := by
  rw [stepData_eq]
  unfold applyAnswer
  refine ⟨?_, ?_, ?_, ?_, ?_, ?_⟩
  · split <;> rfl
  · split <;> rfl
  · intro hl
    split
    · rename_i heq
      rw [(gmi_head_flags d _).1 heq] at hl
      simp at hl
    all_goals rfl
  · intro hb
    split
    case _ => rfl
    case _ heq =>
      rw [(gmi_head_flags d _).2.1 heq] at hb
      simp at hb
    all_goals rfl
  · intro ht
    split
    case _ => rfl
    case _ => rfl
    case _ heq =>
      rw [(gmi_head_flags d _).2.2.1 heq] at ht
      simp at ht
    all_goals rfl
  · intro hs
    split
    case _ => rfl
    case _ => rfl
    case _ => rfl
    case _ heq =>
      rw [(gmi_head_flags d _).2.2.2 heq] at hs
      simp at hs
    all_goals rfl

theorem step_writes (input : String) (d : ScopingData) (t : String) :
    ((getMissingInfo d t).head? = some "location" →
      (stepData input d).location = some input) ∧
    ((getMissingInfo d t).head? = some "budget" →
      (stepData input d).budget = some ((extractBudget input).getD input)) ∧
    ((getMissingInfo d t).head? = some "timeline" →
      (stepData input d).timeline = some input) ∧
    ((getMissingInfo d t).head? = some "specific" →
      (stepData input d).specific = some input) := by
  have e : getMissingInfo d t = getMissingInfo d (d.details.getD "") := rfl
  refine ⟨?_, ?_, ?_, ?_⟩ <;>
    · intro hm
      rw [e] at hm
      rw [stepData_eq]
      unfold applyAnswer
      rw [hm]
      simp

theorem gmi_filter (d : ScopingData) (t : String) :
    getMissingInfo d t = missingFieldOrder.filter (fun f => requiredFieldUnmet d f) := by
  unfold getMissingInfo missingFieldOrder
  cases hq : getTaskSpecificQuestion d.taskType with
  | some s =>
    have htt := q_some_truthy d.taskType (by rw [hq]; rfl)
    cases hl : truthy d.location <;> cases hb : truthy d.budget <;>
      cases ht : truthy d.timeline <;> cases hs : truthy d.specific <;>
      simp_all [List.filter_cons, requiredFieldUnmet]
  | none =>
    cases hl : truthy d.location <;> cases hb : truthy d.budget <;>
      cases ht : truthy d.timeline <;> cases htt : truthy d.taskType <;>
      cases hs : truthy d.specific <;>
      simp_all [List.filter_cons, requiredFieldUnmet]

/-- C1: for every ScopingState, `getMissingInfo` returns the empty list
exactly when location, budget and timeline are set and the task-specific
slot is set or the task type has no registered follow-up question; and
both branches of the controller declare the dialogue complete exactly
when the invariant holds of the updated state. -/
theorem c1_complete_iff_invariant (d : ScopingData) (t input : String) :
    (getMissingInfo d t = [] ↔ completionInvariant d = true) ∧
    ((processFirstInput input d).isComplete = true ↔
      completionInvariant (processFirstInput input d).updatedData = true) ∧
    ((processSubsequentInput input d).isComplete = true ↔
      completionInvariant (processSubsequentInput input d).updatedData = true) := by
  refine ⟨gmi_empty_iff d t, ?_, ?_⟩
  · rw [first_updatedData]
    exact (first_isComplete input d t).trans (gmi_empty_iff (firstTurnData input d) t)
  · exact (subseq_isComplete input d t).trans (gmi_empty_iff (stepData input d) t)

/-- C10: the Missing-Field Policy depends only on the ScopingState: the
`originalText` argument never influences the result; in particular an
utterance mentioning "home" or "apartment" does not satisfy the location
slot — with every other slot filled, `location` is still reported
missing. -/
theorem c10_missing_ignores_utterance (d : ScopingData) (t1 t2 : String) :
    getMissingInfo d t1 = getMissingInfo d t2 ∧
      "location" ∈ getMissingInfo
        { taskType := some "Cleaning", location := none, budget := some "$50",
          timeline := some "Today", details := some "clean my home apartment",
          specific := some "deep cleaning" }
        "clean my home apartment" :=
  ⟨rfl, by decide⟩

/-- C2: the task type is set (to a non-empty category) by the first turn
and never changed by a subsequent turn; `details` is never changed by a
subsequent turn; every slot that is set is left unchanged by a subsequent
turn regardless of the utterance; and a subsequent turn stores the raw
utterance verbatim into the asked slot, except `budget`, which is refined
by the budget extractor (falling back to the raw utterance) exactly when
budget is the asked field. -/
theorem c2_slot_immutability (input : String) (d : ScopingData) :
    (processFirstInput input d).updatedData.taskType = some (extractTaskType input) ∧
    truthy (processFirstInput input d).updatedData.taskType = true ∧
    (stepData input d).taskType = d.taskType ∧
    (stepData input d).details = d.details ∧
    (truthy d.location = true → (stepData input d).location = d.location) ∧
    (truthy d.budget = true → (stepData input d).budget = d.budget) ∧
    (truthy d.timeline = true → (stepData input d).timeline = d.timeline) ∧
    (truthy d.specific = true → (stepData input d).specific = d.specific) ∧
    ((getMissingInfo d "").head? = some "location" →
      (stepData input d).location = some input) ∧
    ((getMissingInfo d "").head? = some "budget" →
      (stepData input d).budget = some ((extractBudget input).getD input)) ∧
    ((getMissingInfo d "").head? = some "timeline" →
      (stepData input d).timeline = some input) ∧
    ((getMissingInfo d "").head? = some "specific" →
      (stepData input d).specific = some input) := by
  obtain ⟨k1, k2, k3, k4, k5, k6⟩ := step_keeps input d
  obtain ⟨w1, w2, w3, w4⟩ := step_writes input d ""
  refine ⟨?_, ?_, k1, k2, k3, k4, k5, k6, w1, w2, w3, w4⟩
  · rw [first_updatedData]
    exact firstTurnData_taskType input d
  · rw [first_updatedData, firstTurnData_taskType]
    simp [truthy, extractTaskType_ne_empty input]

/-- Witness for C2 at concrete inputs: a state missing only the location
slot gets the raw utterance stored there, and set slots survive a turn. -/
theorem c2_slot_immutability_witness :
    (stepData "Brooklyn, NY"
        { taskType := some "Cleaning", location := none, budget := some "$50",
          timeline := some "Today", details := some "deep clean",
          specific := some "deep" }).location = some "Brooklyn, NY" ∧
    (stepData "Brooklyn, NY"
        { taskType := some "Cleaning", location := none, budget := some "$50",
          timeline := some "Today", details := some "deep clean",
          specific := some "deep" }).budget = some "$50" := by
  have h := c2_slot_immutability "Brooklyn, NY"
    { taskType := some "Cleaning", location := none, budget := some "$50",
      timeline := some "Today", details := some "deep clean",
      specific := some "deep" }
  exact ⟨h.2.2.2.2.2.2.2.2.1 (by decide), h.2.2.2.2.2.1 (by decide)⟩

/-- C8: the Missing-Field Policy output is exactly the fixed priority
order location, budget, timeline, specific filtered by unmet-ness
(`specific` only when the task type has a registered follow-up question),
and the controller asks about the head of the list on both kinds of turn
and stores the answer into the head field. -/
theorem c8_priority_order_and_head (d : ScopingData) (t input : String) :
    getMissingInfo d t = missingFieldOrder.filter (fun f => requiredFieldUnmet d f) ∧
    (processFirstInput input d).asked =
      (getMissingInfo (processFirstInput input d).updatedData t).head? ∧
    (processSubsequentInput input d).asked =
      (getMissingInfo (stepData input d) t).head? ∧
    ((getMissingInfo d t).head? = some "location" →
      (stepData input d).location = some input) ∧
    ((getMissingInfo d t).head? = some "budget" →
      (stepData input d).budget = some ((extractBudget input).getD input)) ∧
    ((getMissingInfo d t).head? = some "timeline" →
      (stepData input d).timeline = some input) ∧
    ((getMissingInfo d t).head? = some "specific" →
      (stepData input d).specific = some input) := by
  obtain ⟨w1, w2, w3, w4⟩ := step_writes input d t
  refine ⟨gmi_filter d t, ?_, subseq_asked input d t, w1, w2, w3, w4⟩
  rw [first_updatedData]
  exact first_asked input d t

/-- Witness for C8: with everything missing the policy lists all four
fields in order, and the turn stores into the head (location). -/
theorem c8_priority_order_and_head_witness :
    getMissingInfo { taskType := some "Cleaning" } "x" =
      ["location", "budget", "timeline", "specific"] ∧
    (stepData "Brooklyn, NY" { taskType := some "Cleaning" }).location =
      some "Brooklyn, NY" := by
  have h := c8_priority_order_and_head { taskType := some "Cleaning" } "x" "Brooklyn, NY"
  refine ⟨by rw [h.1]; decide, h.2.2.2.1 (by decide)⟩

/-- C9: a subsequent turn with a non-empty utterance always removes the
head of the missing-field list (the list becomes its own tail, hence
strictly shorter when non-empty), and since at most four fields can be
missing, any four non-empty subsequent turns empty the list and the
fourth response declares the dialogue complete. -/
theorem c9_four_turns_complete (d : ScopingData) (i1 i2 i3 i4 t : String)
    (h1 : i1 ≠ "") (h2 : i2 ≠ "") (h3 : i3 ≠ "") (h4 : i4 ≠ "") :
    (getMissingInfo (stepData i1 d) t = (getMissingInfo d t).tail) ∧
    (getMissingInfo d t ≠ [] →
      (getMissingInfo (stepData i1 d) t).length < (getMissingInfo d t).length) ∧
    getMissingInfo (stepData i4 (stepData i3 (stepData i2 (stepData i1 d)))) t = [] ∧
    (processSubsequentInput i4 (stepData i3 (stepData i2 (stepData i1 d)))).isComplete
      = true := by
  have hs1 := step_missing h1 d t t
  have hs2 := step_missing h2 (stepData i1 d) t t
  have hs3 := step_missing h3 (stepData i2 (stepData i1 d)) t t
  have hs4 := step_missing h4 (stepData i3 (stepData i2 (stepData i1 d))) t t
  have hlen := gmi_len_le d t
  have htail4 : (((getMissingInfo d t).tail).tail).tail.tail = [] := by
    have hzero : ((((getMissingInfo d t).tail).tail).tail.tail).length = 0 := by
      simp only [List.length_tail]
      omega
    exact List.eq_nil_of_length_eq_zero hzero
  have hempty :
      getMissingInfo (stepData i4 (stepData i3 (stepData i2 (stepData i1 d)))) t = [] := by
    rw [hs4, hs3, hs2, hs1]
    exact htail4
  refine ⟨hs1, ?_, hempty, (subseq_isComplete i4 _ t).mpr (by rw [hs4, hs3, hs2, hs1]; exact htail4)⟩
  intro hne
  rw [hs1]
  cases hgm : getMissingInfo d t with
  | nil => exact absurd hgm hne
  | cons a l => simp

/-- Witness for C9: starting from the state after a first turn that only
fixed the task type, four concrete non-empty answers reach completion. -/
theorem c9_four_turns_complete_witness :
    getMissingInfo
      (stepData "Portrait session"
        (stepData "this weekend"
          (stepData "$100-200"
            (stepData "Manhattan, NY"
              { taskType := some "Photography",
                details := some "Looking for a photographer" })))) "" = [] :=
  (c9_four_turns_complete
    { taskType := some "Photography", details := some "Looking for a photographer" }
    "Manhattan, NY" "$100-200" "this weekend" "Portrait session" ""
    (by decide) (by decide) (by decide) (by decide)).2.2.1

/-- C4 counterexample: the first utterance "Need deep cleaning" yields
task type Cleaning and contains the keyword "deep", yet the task-specific
slot is not satisfied by the first turn ("specific" stays in the missing
list), and after location, budget and timeline are answered the dialogue
does ask the task-specific follow-up question.  (This component's
`getMissingInfo` never inspects the utterance; the keyword shortcut
exists only in the UserDashboard variant of the flow.) -/
theorem c4_counterexample_keyword_ignored :
    (processFirstInput "Need deep cleaning" {}).updatedData.specific = none ∧
    "specific" ∈ getMissingInfo (processFirstInput "Need deep cleaning" {}).updatedData
      "Need deep cleaning" ∧
    (processSubsequentInput "today"
        (stepData "$50"
          (stepData "Brooklyn, NY"
            (processFirstInput "Need deep cleaning" {}).updatedData))).asked =
      some "specific" :=
  ⟨by decide, by decide, by decide⟩

/-- C4 (amended): in this component the first turn never satisfies the
task-specific slot from keywords: whenever the extracted task type has a
registered follow-up question and the slot is unset, the slot stays unset
after the first turn and "specific" is in the missing list, so the
follow-up question is always asked eventually. -/
theorem c4_amended_first_turn_never_satisfies_specific (input : String) (d : ScopingData)
    (hq : (getTaskSpecificQuestion (some (extractTaskType input))).isSome = true)
    (hs : truthy d.specific = false) :
    (processFirstInput input d).updatedData.specific = d.specific ∧
    "specific" ∈ getMissingInfo (processFirstInput input d).updatedData input := by
  rw [first_updatedData]
  refine ⟨firstTurnData_specific input d, ?_⟩
  obtain ⟨v, hv⟩ := Option.isSome_iff_exists.mp hq
  have h1 := firstTurnData_taskType input d
  have h2 := firstTurnData_specific input d
  unfold getMissingInfo
  rw [h1, h2, hv, hs]
  simp [truthy, extractTaskType_ne_empty input]

/-- Witness for the amended C4 theorem at the first utterance
"Need deep cleaning" from the empty state. -/
theorem c4_amended_witness :
    (processFirstInput "Need deep cleaning" {}).updatedData.specific =
      ({} : ScopingData).specific ∧
    "specific" ∈ getMissingInfo (processFirstInput "Need deep cleaning" {}).updatedData
      "Need deep cleaning" :=
  c4_amended_first_turn_never_satisfies_specific "Need deep cleaning" {}
    (by decide) (by decide)

theorem applyAnswer_on_complete {d : ScopingData} (retry : String)
    (hc : completionInvariant d = true) : applyAnswer retry d = d := by
  have hm : getMissingInfo d (d.details.getD "") = [] :=
    (gmi_empty_iff d (d.details.getD "")).mpr hc
  unfold applyAnswer
  rw [hm]
  rfl

/-- C5: if the finalization collaborator call fails, the controller
surfaces the user-visible error message, remains in the Complete state,
produces no ParsedRequest and persists no request record, and nothing is
retried automatically (the failure outcome itself triggers no further
call).  The user can retry the last turn: the suggestion chips stay
enabled once the turn's finally block clears `isProcessing`, and clicking
one — identical to submitting its text — runs the subsequent-turn branch
on the completed state, which changes no slot and reports Complete again,
so the finalization call is re-invoked; a successful retry then yields
the merged request and the saved record. -/
theorem c5_failure_recoverable_by_retry (d : ScopingData) (retry : String)
    (obj : GenObject) (hc : completionInvariant d = true) :
    (finalizeAfterComplete d (Except.error ())).isComplete = true ∧
    (finalizeAfterComplete d (Except.error ())).parsedRequest = none ∧
    (finalizeAfterComplete d (Except.error ())).requestSaved = false ∧
    (finalizeAfterComplete d (Except.error ())).errorMessageShown = true ∧
    suggestionChipsEnabled false = true ∧
    (processSubsequentInput retry d).updatedData = d ∧
    (processSubsequentInput retry d).isComplete = true ∧
    finalizeAfterComplete d (Except.ok obj) =
      { isComplete := true, parsedRequest := some (mergeFinalRequest d obj),
        requestSaved := true, errorMessageShown := false } := by
  have hstep : stepData retry d = d := by
    rw [stepData_eq]
    exact applyAnswer_on_complete retry hc
  refine ⟨rfl, rfl, rfl, rfl, rfl, ?_, ?_, rfl⟩
  · show stepData retry d = d
    exact hstep
  · exact (subseq_isComplete retry d "").mpr
      (by rw [hstep]; exact (gmi_empty_iff d "").mpr hc)

/-- Witness for C5 at a concrete completed cleaning request, a concrete
retry utterance and a concrete successful-retry object. -/
theorem c5_failure_recoverable_by_retry_witness :
    (finalizeAfterComplete
        { taskType := some "Cleaning", location := some "Brooklyn, NY",
          budget := some "$50", timeline := some "Today",
          details := some "deep clean", specific := some "deep" }
        (Except.error ())).errorMessageShown = true ∧
    (processSubsequentInput "try again"
        { taskType := some "Cleaning", location := some "Brooklyn, NY",
          budget := some "$50", timeline := some "Today",
          details := some "deep clean", specific := some "deep" }).updatedData =
      { taskType := some "Cleaning", location := some "Brooklyn, NY",
        budget := some "$50", timeline := some "Today",
        details := some "deep clean", specific := some "deep" } ∧
    (processSubsequentInput "try again"
        { taskType := some "Cleaning", location := some "Brooklyn, NY",
          budget := some "$50", timeline := some "Today",
          details := some "deep clean", specific := some "deep" }).isComplete = true := by
  have h := c5_failure_recoverable_by_retry
    { taskType := some "Cleaning", location := some "Brooklyn, NY",
      budget := some "$50", timeline := some "Today",
      details := some "deep clean", specific := some "deep" }
    "try again" ⟨"Cleaning", ["cleaning"], "Brooklyn, NY", "2 hours", 50, "Deep clean"⟩
    (by decide)
  exact ⟨h.2.2.2.1, h.2.2.2.2.2.1, h.2.2.2.2.2.2.1⟩

/-- Witness for C6: an unset timeline slot puts "timeline" into the
missing-field list. -/
theorem c6_timeline_ordered_rules_witness :
    "timeline" ∈ getMissingInfo { taskType := some "Cleaning" } "x" :=
  (c6_timeline_ordered_rules "x").2 { taskType := some "Cleaning" } "x" (by decide)
